import Mathlib

/-!
Verification of the pdf-reconstructor repository against its specification.

The repository has two parts:
* a backend Page-Order Decision Engine (strategies + orchestrator), whose
  Python sources are not part of this tree — its behaviour is modelled here
  from the specification (definitions marked `Modelled from the spec:`);
* a React frontend (`FE/src/components/ProcessingLogs.tsx`,
  `FE/src/components/PDFViewer.tsx`), embedded faithfully below.

Confidences are embedded as rationals (`ℚ`); page indices as naturals.
-/

/-- Modelled from the spec: identifier of one ordering strategy
(spec section 4.3 lists six strategies; `fallbackMethod` tags the orchestrator's
terminal fallback result, spec section 4.4 step 4). -/
inductive StrategyName where
  | pageNumber
  | businessLogic
  | structural
  | dateSequence
  | semanticSimilarity
  | llmReasoning
  | fallbackMethod
  deriving DecidableEq, Repr

/-- Modelled from the spec: the fixed strategy-priority ranking of spec
section 4.4 (Page-Number highest, i.e. smallest rank; LLM-Reasoning lowest). -/
def strategyPriority : StrategyName → ℕ
  | .pageNumber => 0
  | .businessLogic => 1
  | .structural => 2
  | .dateSequence => 3
  | .semanticSimilarity => 4
  | .llmReasoning => 5
  | .fallbackMethod => 6

/-- Modelled from the spec: the `OrderingResult` record of spec section 3 —
output of one strategy attempt or of the orchestrator. -/
structure OrderingResult where
  order : List ℕ
  confidence : ℚ
  reasoning : List String
  method : StrategyName
  deriving DecidableEq, Repr

/-- Modelled from the spec: the permutation check of spec section 4.4 step 5 —
an order is valid for `n` pages when it has exactly `n` entries and contains
each original index in `[0, n)` exactly once. -/
def isValidPermutation (order : List ℕ) (n : ℕ) : Bool :=
  order.length == n && (List.range n).all fun i => order.count i == 1

/-- Modelled from the spec: the non-abstaining results whose order passes the
orchestrator's defensive permutation check (spec section 4.4 step 5: a strategy
returning a non-permutation is treated as if it had abstained). -/
def validResults (n : ℕ) (results : List OrderingResult) : List OrderingResult :=
  results.filter fun r => isValidPermutation r.order n

/-- Modelled from the spec: selection (spec section 4.4 step 3) — pick the
result with the highest confidence; on ties the earliest element of the list
wins, and the orchestrator presents results in strategy-priority order, so
ties are broken by the fixed strategy-priority ranking. -/
def selectBest (results : List OrderingResult) : Option OrderingResult :=
  results.argmax (·.confidence)

/-- Modelled from the spec: the terminal fallback of spec section 4.4 step 4 —
identity order, confidence `0`, with a reasoning entry stating that no
strategy could decide. -/
def fallbackResult (n : ℕ) : OrderingResult :=
  { order := List.range n
    confidence := 0
    reasoning := ["No strategy could determine the page order; falling back to the original order"]
    method := .fallbackMethod }

/-- Modelled from the spec: the `ProcessingResult` record of spec section 3. -/
structure ProcessingResult where
  selected : OrderingResult
  candidates : List OrderingResult
  initial_order : List ℕ
  final_order : List ℕ
  pairwise_confidences : List ℚ
  deriving Repr

/-- Modelled from the spec: the orchestrator (spec section 4.4). `results` is
the list of non-abstaining strategy outputs, in strategy-priority order
(abstentions are simply absent). The orchestrator filters out invalid
permutations, selects by highest confidence with priority tie-break, falls
back to the identity order when nothing is left, broadcasts the selected
confidence across the `n - 1` adjacent transitions (spec section 4.4 step 6,
aggregate-broadcast variant), and sorts `candidates` by descending confidence
(spec section 4.4 step 7). -/
def orchestrate (n : ℕ) (results : List OrderingResult) : ProcessingResult :=
  { selected := (selectBest (validResults n results)).getD (fallbackResult n)
    candidates := (validResults n results).mergeSort fun a b => decide (b.confidence ≤ a.confidence)
    initial_order := List.range n
    final_order := ((selectBest (validResults n results)).getD (fallbackResult n)).order
    pairwise_confidences :=
      List.replicate (n - 1) ((selectBest (validResults n results)).getD (fallbackResult n)).confidence }

/-- The identity order on `n` pages is a valid permutation. -/
theorem isValidPermutation_range (n : ℕ) : isValidPermutation (List.range n) n = true := by
  simp only [isValidPermutation, Bool.and_eq_true, beq_iff_eq, List.all_eq_true]
  refine ⟨List.length_range n, fun i hi => ?_⟩
  exact List.count_eq_one_of_mem (List.nodup_range n) hi

/-- Any result returned by `selectBest` is an element of its input list. -/
theorem selectBest_mem {results : List OrderingResult} {r : OrderingResult}
    (h : selectBest results = some r) : r ∈ results :=
  List.argmax_mem h

/-- Membership in `validResults` implies the permutation check passes. -/
theorem validResults_perm {n : ℕ} {results : List OrderingResult} {r : OrderingResult}
    (h : r ∈ validResults n results) : isValidPermutation r.order n = true :=
  (List.mem_filter.mp h).2

/-- Membership in `validResults` implies membership in the raw results. -/
theorem validResults_subset {n : ℕ} {results : List OrderingResult} {r : OrderingResult}
    (h : r ∈ validResults n results) : r ∈ results :=
  (List.mem_filter.mp h).1

/-- C1: for every input of `n ≥ 1` pages, the orchestrator's `final_order`,
and the order of every result the orchestrator retains as non-abstaining
(a result whose order fails the permutation check is downgraded to an
abstention and never reaches `candidates`), are permutations of `[0, n)` —
exactly `n` entries, each original index exactly once. -/
theorem final_order_is_permutation (n : ℕ) (_hn : 1 ≤ n)
    (results : List OrderingResult) :
    isValidPermutation (orchestrate n results).final_order n = true ∧
    ∀ r ∈ (orchestrate n results).candidates, isValidPermutation r.order n = true := by
  constructor
  · show isValidPermutation ((selectBest (validResults n results)).getD (fallbackResult n)).order n
        = true
    cases h : selectBest (validResults n results) with
    | none => simpa [fallbackResult] using isValidPermutation_range n
    | some r => simpa using validResults_perm (selectBest_mem h)
  · intro r hr
    have hmem : r ∈ validResults n results := List.mem_mergeSort.mp hr
    exact validResults_perm hmem

/-- C1 witness: at `n = 2` with no strategy succeeding, the fallback identity
order `[0, 1]` passes the permutation check. -/
theorem final_order_is_permutation_witness :
    1 ≤ 2 ∧
    (isValidPermutation (orchestrate 2 []).final_order 2 = true ∧
      ∀ r ∈ (orchestrate 2 []).candidates, isValidPermutation r.order 2 = true) :=
  ⟨by decide, final_order_is_permutation 2 (by decide) []⟩

/-- C2: if every strategy result carries a confidence in `[0, 1]` (spec
section 4.3: each strategy self-assesses in `[0, 1]`, the LLM strategy clamps),
then the orchestrator's selected result — including the terminal fallback,
whose confidence is `0` — has confidence in `[0, 1]`. -/
theorem selected_confidence_in_unit_interval (n : ℕ) (results : List OrderingResult)
    (hconf : ∀ r ∈ results, 0 ≤ r.confidence ∧ r.confidence ≤ 1) :
    0 ≤ (orchestrate n results).selected.confidence ∧
    (orchestrate n results).selected.confidence ≤ 1 := by
  show 0 ≤ ((selectBest (validResults n results)).getD (fallbackResult n)).confidence ∧
      ((selectBest (validResults n results)).getD (fallbackResult n)).confidence ≤ 1
  cases h : selectBest (validResults n results) with
  | none => exact ⟨le_refl 0, zero_le_one⟩
  | some r =>
    simp only [Option.getD_some]
    exact hconf r (validResults_subset (selectBest_mem h))

/-- C2 witness: with no non-abstaining strategy at all, the terminal fallback's
confidence `0` lies in `[0, 1]`. -/
theorem selected_confidence_in_unit_interval_witness :
    (∀ r ∈ ([] : List OrderingResult), 0 ≤ r.confidence ∧ r.confidence ≤ 1) ∧
    (0 ≤ (orchestrate 1 []).selected.confidence ∧
      (orchestrate 1 []).selected.confidence ≤ 1) :=
  ⟨by simp, selected_confidence_in_unit_interval 1 [] (by simp)⟩

/-- C3: if every strategy abstains (the list of non-abstaining results is
empty), the orchestrator returns the identity order with confidence exactly
`0` and a non-empty reasoning entry stating that no strategy could decide;
`orchestrate` is a total function, so this path yields a complete
`ProcessingResult` and never an exception. -/
theorem all_abstain_terminal_fallback (n : ℕ) :
    (orchestrate n []).final_order = List.range n ∧
    (orchestrate n []).selected.confidence = 0 ∧
    (orchestrate n []).selected.reasoning =
      ["No strategy could determine the page order; falling back to the original order"] ∧
    (orchestrate n []).selected.reasoning ≠ [] ∧
    (orchestrate n []).initial_order = List.range n := by
  refine ⟨rfl, rfl, rfl, ?_, rfl⟩
  show (fallbackResult n).reasoning ≠ []
  simp [fallbackResult]

/-- C4: with the non-abstaining results presented in strategy-priority order
(Page-Number first, LLM-Reasoning last), the orchestrator selects a result of
maximal confidence, and any other valid result of equal confidence belongs to
a strategy of equal or lower priority rank — equal-confidence ties are broken
by the fixed strategy-priority ranking. -/
theorem selection_max_confidence_priority_tiebreak (n : ℕ)
    (results : List OrderingResult)
    (hsorted : results.Pairwise fun a b => strategyPriority a.method < strategyPriority b.method)
    (r : OrderingResult) (hr : r ∈ validResults n results) :
    r.confidence ≤ (orchestrate n results).selected.confidence ∧
    (r.confidence = (orchestrate n results).selected.confidence →
      strategyPriority (orchestrate n results).selected.method ≤
        strategyPriority r.method) := by
  cases h : selectBest (validResults n results) with
  | none =>
    rw [selectBest, List.argmax_eq_none] at h
    rw [h] at hr
    exact absurd hr (List.not_mem_nil r)
  | some m =>
    have hm : m ∈ (validResults n results).argmax (·.confidence) := Option.mem_def.mpr h
    have hsel : (orchestrate n results).selected = m := by
      show (selectBest (validResults n results)).getD (fallbackResult n) = m
      rw [h]
      rfl
    rw [hsel]
    refine ⟨List.le_of_mem_argmax hr hm, fun heq => ?_⟩
    have hmm : m ∈ validResults n results := List.argmax_mem hm
    have hidx : (validResults n results).indexOf m ≤ (validResults n results).indexOf r :=
      List.index_of_argmax hm hr heq.ge
    have hvalidSorted : (validResults n results).Pairwise
        fun a b => strategyPriority a.method < strategyPriority b.method :=
      hsorted.filter _
    have hi : (validResults n results).indexOf m < (validResults n results).length :=
      List.indexOf_lt_length.mpr hmm
    have hj : (validResults n results).indexOf r < (validResults n results).length :=
      List.indexOf_lt_length.mpr hr
    have hgm : (validResults n results).get ⟨(validResults n results).indexOf m, hi⟩ = m :=
      List.indexOf_get hi
    have hgr : (validResults n results).get ⟨(validResults n results).indexOf r, hj⟩ = r :=
      List.indexOf_get hj
    rcases hidx.lt_or_eq with hlt | heqidx
    · have hpw := List.pairwise_iff_get.mp hvalidSorted
        ⟨(validResults n results).indexOf m, hi⟩
        ⟨(validResults n results).indexOf r, hj⟩ (Fin.mk_lt_mk.mpr hlt)
      rw [hgm, hgr] at hpw
      exact hpw.le
    · have hfin : (⟨(validResults n results).indexOf m, hi⟩ :
          Fin (validResults n results).length) = ⟨(validResults n results).indexOf r, hj⟩ :=
        Fin.ext heqidx
      have hmr : m = r := by rw [← hgm, ← hgr, hfin]
      rw [hmr]

/-- Concrete Page-Number result with confidence 0.90 over two pages, used to
exercise the tie-break. -/
def pageNumberTieResult : OrderingResult :=
  { order := [0, 1]
    confidence := 9/10
    reasoning := ["page numbers detected on every page"]
    method := .pageNumber }

/-- Concrete Structural-Pattern result with confidence 0.90 over two pages,
used to exercise the tie-break. -/
def structuralTieResult : OrderingResult :=
  { order := [1, 0]
    confidence := 9/10
    reasoning := ["cover page detected"]
    method := .structural }

/-- C4 witness: at the 0.90/0.90 tie between Page-Number and
Structural-Pattern, the selected result's confidence is maximal and its
priority rank is at most Page-Number's — Page-Number wins the tie. -/
theorem selection_max_confidence_priority_tiebreak_witness :
    ([pageNumberTieResult, structuralTieResult].Pairwise fun a b =>
      strategyPriority a.method < strategyPriority b.method) ∧
    pageNumberTieResult ∈ validResults 2 [pageNumberTieResult, structuralTieResult] ∧
    (pageNumberTieResult.confidence ≤
        (orchestrate 2 [pageNumberTieResult, structuralTieResult]).selected.confidence ∧
      (pageNumberTieResult.confidence =
          (orchestrate 2 [pageNumberTieResult, structuralTieResult]).selected.confidence →
        strategyPriority
            (orchestrate 2 [pageNumberTieResult, structuralTieResult]).selected.method ≤
          strategyPriority pageNumberTieResult.method)) :=
  ⟨by decide,
    List.mem_filter.mpr ⟨List.mem_cons_self _ _, by decide⟩,
    selection_max_confidence_priority_tiebreak 2 [pageNumberTieResult, structuralTieResult]
      (by decide) pageNumberTieResult
      (List.mem_filter.mpr ⟨List.mem_cons_self _ _, by decide⟩)⟩

/-- Rendering of one right transition endpoint in the Confidence Analysis list
of `ProcessingLogs.tsx` (line 216): either a page index or the literal text
shown as `End`. -/
inductive EndpointLabel where
  | page (idx : ℕ)
  | endOfList
  deriving DecidableEq, Repr

/-- Embedding of the right-endpoint expression
`metadata.final_order?.[idx + 1] || 'End'` of `ProcessingLogs.tsx` line 216.
In JavaScript both `undefined` (index out of bounds) and the number `0` are
falsy, so the expression yields the text `End` exactly in those two cases. -/
def rightEndpointLabel (finalOrder : List ℕ) (idx : ℕ) : EndpointLabel :=
  match finalOrder[idx + 1]? with
  | some k => if k = 0 then .endOfList else .page k
  | none => .endOfList

/-- One rendered row of the transition list, `ProcessingLogs.tsx`
lines 213-223: the left endpoint `metadata.final_order?.[idx]` (rendered
blank when absent, hence an `Option`), the right endpoint with the `|| End`
fallback, and the row's confidence value. -/
structure TransitionRow where
  left : Option ℕ
  right : EndpointLabel
  conf : ℚ
  deriving DecidableEq, Repr

/-- Embedding of `metadata.confidences.slice(0, 10).map((conf, idx) => ...)`
from `ProcessingLogs.tsx` lines 213-223: one row per confidence entry among
the first ten. -/
def transitionRows (confidences : List ℚ) (finalOrder : List ℕ) : List TransitionRow :=
  (confidences.take 10).enum.map fun p =>
    { left := finalOrder[p.1]?
      right := rightEndpointLabel finalOrder p.1
      conf := p.2 }

/-- Transition row lookup: row `idx` (when rendered) carries the left
endpoint `final_order?.[idx]`, the right-endpoint label for `idx`, and the
`idx`-th confidence. -/
theorem transitionRows_getElem (confidences : List ℚ) (finalOrder : List ℕ)
    (idx : ℕ) (c : ℚ) (hidx : idx < 10) (hc : confidences[idx]? = some c) :
    (transitionRows confidences finalOrder)[idx]? =
      some { left := finalOrder[idx]?
             right := rightEndpointLabel finalOrder idx
             conf := c } := by
  rw [transitionRows, List.getElem?_map, List.getElem?_enum,
    List.getElem?_take_of_lt hidx, hc]
  rfl

/-- C9: in a rendered transition row, the right endpoint shows `End` exactly
when `final_order?.[idx + 1]` is the page index `0` (which is falsy in
JavaScript) or is absent; in particular, whenever original page index `0`
appears at any position `idx + 1` of `final_order`, that row displays `End`
in place of `0`, so the `End` label is not reserved to the final transition
row. -/
theorem end_label_shown_for_page_zero (confidences : List ℚ) (finalOrder : List ℕ)
    (idx : ℕ) (c : ℚ) (row : TransitionRow)
    (hidx : idx < 10) (hc : confidences[idx]? = some c)
    (hrow : (transitionRows confidences finalOrder)[idx]? = some row) :
    (row.right = .endOfList ↔
      (finalOrder[idx + 1]? = some 0 ∨ finalOrder[idx + 1]? = none)) := by
  rw [transitionRows_getElem confidences finalOrder idx c hidx hc] at hrow
  have hr : row.right = rightEndpointLabel finalOrder idx := by
    cases Option.some.inj hrow
    rfl
  rw [hr, rightEndpointLabel]
  cases h : finalOrder[idx + 1]? with
  | none => simp
  | some k =>
    by_cases hk : k = 0
    · subst hk
      simp
    · simp [hk]

/-- C9 witness: with `final_order = [1, 0, 2]` and two transitions, row `0` —
which is not the final transition row — shows `End` on the right because
page index `0` sits at position `1`. -/
theorem end_label_shown_for_page_zero_witness :
    (0 : ℕ) < 10 ∧
    ([(9 : ℚ)/10, 8/10][0]? = some ((9 : ℚ)/10)) ∧
    ((transitionRows [(9 : ℚ)/10, 8/10] [1, 0, 2])[0]? =
      some { left := some 1, right := .endOfList, conf := (9 : ℚ)/10 }) ∧
    (({ left := some 1, right := .endOfList, conf := (9 : ℚ)/10 } :
        TransitionRow).right = .endOfList ↔
      (([1, 0, 2] : List ℕ)[0 + 1]? = some 0 ∨ ([1, 0, 2] : List ℕ)[0 + 1]? = none)) :=
  ⟨by decide, rfl, rfl,
    end_label_shown_for_page_zero [(9 : ℚ)/10, 8/10] [1, 0, 2] 0 ((9 : ℚ)/10)
      { left := some 1, right := .endOfList, conf := (9 : ℚ)/10 }
      (by decide) rfl rfl⟩

/-- C5 counterexample: with `final_order = [1, 0]` and one pairwise
confidence, the single transition row does not display the pair
`(final_order[0], final_order[1]) = (1, 0)` — the right endpoint renders as
`End` instead of page `0`, because `0` is falsy in JavaScript. -/
theorem transition_row_pair_counterexample :
    (transitionRows [(9 : ℚ)/10] [1, 0]).map TransitionRow.right =
      [EndpointLabel.endOfList] ∧
    (transitionRows [(9 : ℚ)/10] [1, 0]).map TransitionRow.right ≠
      [EndpointLabel.page 0] := by
  refine ⟨rfl, ?_⟩
  intro h
  rw [show (transitionRows [(9 : ℚ)/10] [1, 0]).map TransitionRow.right =
      [EndpointLabel.endOfList] from rfl] at h
  exact absurd (List.cons.inj h).1 (by decide)

/-- C5 (amended): `pairwise_confidences` has exactly `n - 1` entries, one per
adjacent transition of `final_order`; and for every rendered transition row
`idx` (among the first ten) whose successor entry `final_order[idx + 1]`
exists and is not the page index `0`, the row shows the pair
`(final_order[idx], final_order[idx + 1])` annotated with
`confidences[idx]`. -/
theorem pairwise_confidences_length_and_rows (n : ℕ) (_hn : 1 ≤ n)
    (results : List OrderingResult)
    (confidences : List ℚ) (finalOrder : List ℕ) (idx m k : ℕ) (c : ℚ)
    (hidx : idx < 10)
    (hc : confidences[idx]? = some c)
    (hm : finalOrder[idx]? = some m)
    (hk : finalOrder[idx + 1]? = some k) (hk0 : k ≠ 0) :
    (orchestrate n results).pairwise_confidences.length = n - 1 ∧
    (transitionRows confidences finalOrder)[idx]? =
      some { left := some m, right := .page k, conf := c } := by
  constructor
  · exact List.length_replicate _ _
  · rw [transitionRows_getElem confidences finalOrder idx c hidx hc, hm,
      rightEndpointLabel, hk]
    simp [hk0]

/-- C5 witness: at `n = 2` with `final_order = [1, 2]` and one confidence,
`pairwise_confidences` from the orchestrator has length `1` and row `0`
shows the pair `(1, 2)` with that confidence. -/
theorem pairwise_confidences_length_and_rows_witness :
    1 ≤ 2 ∧ (0 : ℕ) < 10 ∧
    ([(9 : ℚ)/10][0]? = some ((9 : ℚ)/10)) ∧
    (([1, 2] : List ℕ)[0]? = some 1) ∧
    (([1, 2] : List ℕ)[0 + 1]? = some 2) ∧ (2 : ℕ) ≠ 0 ∧
    ((orchestrate 2 []).pairwise_confidences.length = 2 - 1 ∧
      (transitionRows [(9 : ℚ)/10] [1, 2])[0]? =
        some { left := some 1, right := .page 2, conf := (9 : ℚ)/10 }) :=
  ⟨by decide, by decide, rfl, rfl, rfl, by decide,
    pairwise_confidences_length_and_rows 2 (by decide) [] [(9 : ℚ)/10] [1, 2] 0 1 2
      ((9 : ℚ)/10) (by decide) rfl rfl rfl (by decide)⟩

/-- Embedding of the high bucket of the confidence histogram,
`metadata.confidences.filter(c => c >= 0.8).length`
(`ProcessingLogs.tsx` line 195). -/
def countHighConfidences (cs : List ℚ) : ℕ :=
  (cs.filter fun c => decide ((8 : ℚ)/10 ≤ c)).length

/-- Embedding of the medium bucket of the confidence histogram,
`metadata.confidences.filter(c => c >= 0.6 && c < 0.8).length`
(`ProcessingLogs.tsx` line 201). -/
def countMediumConfidences (cs : List ℚ) : ℕ :=
  (cs.filter fun c => decide ((6 : ℚ)/10 ≤ c) && decide (c < (8 : ℚ)/10)).length

/-- Embedding of the low bucket of the confidence histogram,
`metadata.confidences.filter(c => c < 0.6).length`
(`ProcessingLogs.tsx` line 207). -/
def countLowConfidences (cs : List ℚ) : ℕ :=
  (cs.filter fun c => decide (c < (6 : ℚ)/10)).length

/-- C6: the three histogram buckets — high (`c ≥ 0.8`), medium
(`0.6 ≤ c < 0.8`), low (`c < 0.6`) — are mutually exclusive and exhaustive:
for every confidences list their counts sum to the length of the list. -/
theorem confidence_histogram_partition (cs : List ℚ) :
    countHighConfidences cs + countMediumConfidences cs + countLowConfidences cs =
      cs.length := by
  induction cs with
  | nil => rfl
  | cons c cs ih =>
    unfold countHighConfidences countMediumConfidences countLowConfidences at ih ⊢
    by_cases h8 : (8 : ℚ)/10 ≤ c
    · have h6 : (6 : ℚ)/10 ≤ c := le_trans (by norm_num) h8
      have hn8 : ¬c < (8 : ℚ)/10 := not_lt.mpr h8
      have hn6 : ¬c < (6 : ℚ)/10 := not_lt.mpr h6
      simp [List.filter_cons, h8, h6, hn8, hn6]
      omega
    · have hlt8 : c < (8 : ℚ)/10 := not_le.mp h8
      by_cases h6 : (6 : ℚ)/10 ≤ c
      · have hn6 : ¬c < (6 : ℚ)/10 := not_lt.mpr h6
        simp [List.filter_cons, h8, h6, hlt8, hn6]
        omega
      · have hlt6 : c < (6 : ℚ)/10 := not_le.mp h6
        simp [List.filter_cons, h8, h6, hlt6]
        omega

/-- Embedding of `.replace(/\n/g, ' ')` (`ProcessingLogs.tsx` line 267):
every newline character of the excerpt is displayed as a space. Text is
embedded as a list of characters. -/
def normalizeNewlines (cs : List Char) : List Char :=
  cs.map fun ch => if ch = '\n' then ' ' else ch

/-- Embedding of the excerpt shown for one previewed page
(`ProcessingLogs.tsx` lines 267-268):
`summary.substring(0, 150).replace(/\n/g, ' ')` followed by `'...'` exactly
when `summary.length > 150`. -/
def previewExcerpt (summary : List Char) : List Char :=
  normalizeNewlines (summary.take 150) ++
    if 150 < summary.length then ['.', '.', '.'] else []

/-- One rendered card of the Page Content Preview section
(`ProcessingLogs.tsx` lines 255-271): display position, the original page
index taken from `final_order`, and the excerpt. -/
structure PreviewRow where
  position : ℕ
  pageIdx : ℕ
  excerpt : List Char
  deriving DecidableEq, Repr

/-- Embedding of `metadata.final_order?.slice(0, 8).map((pageIdx, position)
=> ...)` (`ProcessingLogs.tsx` lines 255-271): one card per entry among the
first eight of `final_order`, whose excerpt is looked up at the original
page index `pageIdx`, not at the display position. -/
def previewRows (finalOrder : List ℕ) (summaries : ℕ → List Char) : List PreviewRow :=
  (finalOrder.take 8).enum.map fun p =>
    { position := p.1
      pageIdx := p.2
      excerpt := previewExcerpt (summaries p.2) }

/-- C7: the content preview is keyed by original page index, not display
position — the card at position `p` shows the excerpt of
`summaries (finalOrder[p])`; the excerpt is the summary itself (newlines
spaced) when it has at most `150` characters, and its first `150` characters
followed by an ellipsis exactly when it is longer than `150`. -/
theorem preview_keyed_by_original_index (finalOrder : List ℕ)
    (summaries : ℕ → List Char) (p pageIdx : ℕ)
    (hp : p < 8) (hfo : finalOrder[p]? = some pageIdx) :
    (previewRows finalOrder summaries)[p]? =
      some { position := p
             pageIdx := pageIdx
             excerpt := previewExcerpt (summaries pageIdx) } ∧
    ((summaries pageIdx).length ≤ 150 →
      previewExcerpt (summaries pageIdx) = normalizeNewlines (summaries pageIdx)) ∧
    (150 < (summaries pageIdx).length →
      previewExcerpt (summaries pageIdx) =
        normalizeNewlines ((summaries pageIdx).take 150) ++ ['.', '.', '.']) := by
  refine ⟨?_, fun hle => ?_, fun hgt => ?_⟩
  · rw [previewRows, List.getElem?_map, List.getElem?_enum,
      List.getElem?_take_of_lt hp, hfo]
    rfl
  · rw [previewExcerpt, if_neg (not_lt.mpr hle), List.append_nil,
      List.take_of_length_le hle]
  · rw [previewExcerpt, if_pos hgt]

/-- C7 witness: with `final_order = [2, 0]` and a one-character summary for
every page, the card at position `0` is keyed by original page index `2` and
shows the full summary with no ellipsis. -/
theorem preview_keyed_by_original_index_witness :
    (0 : ℕ) < 8 ∧
    (([2, 0] : List ℕ)[0]? = some 2) ∧
    ((previewRows [2, 0] fun _ => ['a'])[0]? =
        some { position := 0, pageIdx := 2, excerpt := previewExcerpt ['a'] } ∧
      ((['a'] : List Char).length ≤ 150 →
        previewExcerpt ['a'] = normalizeNewlines ['a']) ∧
      (150 < (['a'] : List Char).length →
        previewExcerpt ['a'] =
          normalizeNewlines ((['a'] : List Char).take 150) ++ ['.', '.', '.'])) :=
  ⟨by decide, rfl,
    preview_keyed_by_original_index [2, 0] (fun _ => ['a']) 0 2 (by decide) rfl⟩

/-- Embedding of the average-confidence computation of `ProcessingLogs.tsx`
lines 90-92:
`metadata?.confidences ? confidences.reduce((a, b) => a + b, 0) / confidences.length : result.selectedStrategy.confidence`.
An empty JavaScript array is truthy, so the ternary takes the division branch
whenever the `confidences` field is present, even when it is empty; dividing
the sum `0` by the length `0` then yields `NaN`, modelled here as `none`.
The fallback to the selected strategy's confidence is taken only when the
field is absent. -/
def averageConfidence (confidences : Option (List ℚ)) (selectedConfidence : ℚ) :
    Option ℚ :=
  match confidences with
  | some cs => if cs.length = 0 then none else some (cs.sum / (cs.length : ℚ))
  | none => some selectedConfidence

/-- C8: when the `confidences` field is present but empty — the single-page
case, where `pairwise_confidences` has length `0` — the average confidence is
an unguarded `0 / 0` division yielding `NaN` (`none`), not the fallback
value; the fallback to the selected strategy's confidence is taken only when
the field is absent. -/
theorem average_confidence_empty_division_by_zero (selectedConfidence : ℚ) :
    averageConfidence (some []) selectedConfidence = none ∧
    averageConfidence (some []) selectedConfidence ≠ some selectedConfidence ∧
    averageConfidence none selectedConfidence = some selectedConfidence := by
  refine ⟨rfl, ?_, rfl⟩
  intro h
  rw [show averageConfidence (some []) selectedConfidence = none from rfl] at h
  exact Option.noConfusion h

/-- State of the `PDFViewer` component (`PDFViewer.tsx` lines 15-16): the
`numPages` and `pageNumber` React state variables, embedded as integers. -/
structure ViewerState where
  numPages : ℤ
  pageNumber : ℤ
  deriving DecidableEq, Repr

/-- Embedding of `onDocumentLoadSuccess` (`PDFViewer.tsx` lines 18-21): a
successful document load stores the page count and resets `pageNumber`
to `1`. -/
def loadDocument (numPages : ℤ) : ViewerState :=
  { numPages := numPages, pageNumber := 1 }

/-- Embedding of `goToPrevPage` (`PDFViewer.tsx` lines 23-25):
`setPageNumber(prev => Math.max(prev - 1, 1))`. -/
def goToPrevPage (s : ViewerState) : ViewerState :=
  { s with pageNumber := max (s.pageNumber - 1) 1 }

/-- Embedding of `goToNextPage` (`PDFViewer.tsx` lines 27-29):
`setPageNumber(prev => Math.min(prev + 1, numPages))`. -/
def goToNextPage (s : ViewerState) : ViewerState :=
  { s with pageNumber := min (s.pageNumber + 1) s.numPages }

/-- The two navigation buttons of the viewer. -/
inductive NavButton where
  | prevPage
  | nextPage
  deriving DecidableEq, Repr

/-- A user press of a navigation button. The buttons are only rendered when
`numPages > 0` (`PDFViewer.tsx` line 58) and carry `disabled` attributes —
`pageNumber <= 1` for the previous button (line 64) and
`pageNumber >= numPages` for the next button (line 77); a hidden or disabled
HTML button cannot fire its click handler, so such a press leaves the state
unchanged. -/
def pressNavButton (s : ViewerState) : NavButton → ViewerState
  | .prevPage => if 0 < s.numPages ∧ 1 < s.pageNumber then goToPrevPage s else s
  | .nextPage => if 0 < s.numPages ∧ s.pageNumber < s.numPages then goToNextPage s else s

/-- A sequence of button presses applied left to right. -/
def runNavPresses (s : ViewerState) (presses : List NavButton) : ViewerState :=
  presses.foldl pressNavButton s

/-- One press preserves the page-range invariant and the page count. -/
theorem pressNavButton_invariant (s : ViewerState) (b : NavButton)
    (h1 : 1 ≤ s.pageNumber) (h2 : s.pageNumber ≤ max s.numPages 1) :
    1 ≤ (pressNavButton s b).pageNumber ∧
    (pressNavButton s b).pageNumber ≤ max (pressNavButton s b).numPages 1 ∧
    (pressNavButton s b).numPages = s.numPages := by
  cases b with
  | prevPage =>
    by_cases hc : 0 < s.numPages ∧ 1 < s.pageNumber
    · simp only [pressNavButton, if_pos hc, goToPrevPage]
      refine ⟨?_, ?_, ?_⟩
      · omega
      · omega
      · trivial
    · simp only [pressNavButton, if_neg hc]
      exact ⟨h1, h2, trivial⟩
  | nextPage =>
    by_cases hc : 0 < s.numPages ∧ s.pageNumber < s.numPages
    · simp only [pressNavButton, if_pos hc, goToNextPage]
      refine ⟨?_, ?_, ?_⟩
      · omega
      · omega
      · trivial
    · simp only [pressNavButton, if_neg hc]
      exact ⟨h1, h2, trivial⟩

/-- C10: once a document loads (setting `pageNumber` to `1`), every sequence
of previous/next presses preserves `1 ≤ pageNumber ≤ max numPages 1`: the
previous handler clamps at `1`, the next handler clamps at `numPages`, and
the buttons are hidden or disabled outside the valid range, so `pageNumber`
never leaves the valid page range. -/
theorem viewer_page_number_in_range (numPages : ℤ) (presses : List NavButton) :
    1 ≤ (runNavPresses (loadDocument numPages) presses).pageNumber ∧
    (runNavPresses (loadDocument numPages) presses).pageNumber ≤ max numPages 1 := by
  suffices h : ∀ (ps : List NavButton) (s : ViewerState), 1 ≤ s.pageNumber →
      s.pageNumber ≤ max s.numPages 1 →
      1 ≤ (runNavPresses s ps).pageNumber ∧
      (runNavPresses s ps).pageNumber ≤ max (runNavPresses s ps).numPages 1 ∧
      (runNavPresses s ps).numPages = s.numPages by
    have hload := h presses (loadDocument numPages) (le_refl 1) (le_max_right _ _)
    refine ⟨hload.1, ?_⟩
    have := hload.2.1
    rw [hload.2.2] at this
    exact this
  intro ps
  induction ps with
  | nil => exact fun s h1 h2 => ⟨h1, h2, rfl⟩
  | cons b ps ih =>
    intro s h1 h2
    have hstep := pressNavButton_invariant s b h1 h2
    have hrec := ih (pressNavButton s b) hstep.1 hstep.2.1
    have hrun : runNavPresses s (b :: ps) = runNavPresses (pressNavButton s b) ps := rfl
    rw [hrun]
    exact ⟨hrec.1, hrec.2.1, hrec.2.2.trans hstep.2.2⟩
